import Mathlib

/-
Verification development for the spline-generator repository.

The Rust sources are shallowly embedded in Lean:
- f32 scalar arithmetic is modelled over the exact rationals; the
  transcendental operations (square root, sine/cosine) are abstracted as
  function parameters so that theorems hold for any interpretation, and
  concrete instantiations used in witness evaluations are exact at the
  points where IEEE f32 arithmetic itself is exact.
- the HashMap String (Vec VMFEntry) of the VMF parser is modelled as an
  association list with unique keys and the same lookup and insert
  semantics.
- fallible Rust code (anyhow Result) is modelled with Except String.
- u32 arithmetic is modelled with Nat; where wraparound is reachable and
  relevant (the end-cap loop bound sides - 1) the wrapping subtraction is
  modelled explicitly modulo 2^32, matching release-mode Rust.
-/

deriving instance DecidableEq for Except

/-! ### Character and string helpers

Lean 4.14 String primitives (String.trim, String.toUpper, String.splitOn)
do not reduce well in the kernel, so equivalents are defined here over the
character list. They model the Rust functions str::trim, str::to_uppercase
and str::split for the ASCII inputs relevant to the VMF format.
-/

def charUpper (c : Char) : Char :=
  if c.toNat ≥ 97 ∧ c.toNat ≤ 122 then Char.ofNat (c.toNat - 32) else c

def strUpper (s : String) : String := ⟨s.data.map charUpper⟩

def isWhite (c : Char) : Bool := c = ' ' ∨ c = '\t' ∨ c = '\r' ∨ c = '\n'

def strTrim (s : String) : String :=
  ⟨((s.data.dropWhile isWhite).reverse.dropWhile isWhite).reverse⟩

/-- Model of Rust value.split(" "): splits on every single space, keeping
empty segments. -/
def splitSpaces (s : String) : List String :=
  (s.data.foldr (fun c acc =>
    match acc with
    | [] => if c = ' ' then [[], []] else [[c]]
    | l :: rest => if c = ' ' then [] :: (l :: rest) else (c :: l) :: rest)
    [[]]).map (fun l => String.mk l)

/-! ### VMF tree model (src/src/world/map.rs)

type VMFBranch = HashMap String, Vec VMFEntry. The HashMap is modelled as
an association list with unique keys; lookup order inside the map is
irrelevant to the source, which only accesses it by key.
-/

inductive VMFEntry where
  | branch : List (String × List VMFEntry) → VMFEntry
  | leaf : String → VMFEntry

abbrev VMFBranch := List (String × List VMFEntry)

def branchGet (b : VMFBranch) (k : String) : Option (List VMFEntry) :=
  match b with
  | [] => none
  | (k2, es) :: rest => if k2 = k then some es else branchGet rest k

/-- Model of the insert performed by VMF::from_string for both leaves and
closed branches: push onto the existing list for the key, or create a
fresh singleton list if the key is absent. -/
def branchInsert (b : VMFBranch) (k : String) (e : VMFEntry) : VMFBranch :=
  match b with
  | [] => [(k, [e])]
  | (k2, es) :: rest =>
    if k2 = k then (k2, es ++ [e]) :: rest else (k2, es) :: branchInsert rest k e

/-- VMFEntry::to_str. -/
def toStr : VMFEntry → Except String String
  | .leaf value => .ok value
  | .branch _ => .error "cannot convert VMF branch into string"

/-- VMFEntry::get_one: requires a branch, and exactly one value under the
key (the source bails when values.len() != 1). -/
def getOne (e : VMFEntry) (k : String) : Except String VMFEntry :=
  match e with
  | .branch b =>
    match branchGet b k with
    | none => .error "VMF branch does not contain specified key"
    | some [v] => .ok v
    | some _ => .error "VMF branch contains more than one value"
  | .leaf _ => .error "cannot call get_one on a VMF leaf"

/-- VMFEntry::get_all: an absent key yields the empty list, not an error
(src/src/world/map.rs version). -/
def getAll (e : VMFEntry) (k : String) : Except String (List VMFEntry) :=
  match e with
  | .branch b => .ok ((branchGet b k).getD [])
  | .leaf _ => .error "cannot call get_all on a VMF leaf"

/-! ### The line format of leaf entries

The source tests each trimmed line against the regex
caret quote (.*) quote space quote (.*) quote dollar with greedy groups:
the line must be quote A quote space quote B quote, and with a greedy
first group the separator is the LAST quote-space-quote occurrence
strictly inside the outer quotes.
-/

/-- Splits a character list at the last occurrence of
quote-space-quote, returning the parts before and after it. Preferring
the recursive result implements the LAST occurrence, matching the greedy
regex group. -/
def lastQSplit : List Char → Option (List Char × List Char)
  | [] => none
  | c :: rest =>
    match lastQSplit rest with
    | some (a, b) => some (c :: a, b)
    | none =>
      if c = '"' then
        match rest with
        | ' ' :: '"' :: tail => some ([], tail)
        | _ => none
      else none

/-- Model of the leaf-line regex match on a trimmed line, returning the
key and value capture groups. -/
def matchLeaf (s : String) : Option (String × String) :=
  let cs := s.data
  if 2 ≤ cs.length ∧ cs.head? = some '"' ∧ cs.getLast? = some '"' then
    (lastQSplit ((cs.drop 1).dropLast)).map (fun p => (String.mk p.1, String.mk p.2))
  else none

/-! ### VMF::from_string (src/src/world/map.rs lines 386-451)

Processes input line by line with an explicit stack of
(parent branch, pending key) frames. The Rust iterator over lines is
modelled by a list of line strings.
-/

def runParse : List String → VMFBranch → List (VMFBranch × String) → Except String VMFBranch
  | [], cur, stack =>
    -- end of input: a non-empty stack means an unclosed branch
    if stack.isEmpty then .ok cur else .error "invalid VMF structure"
  | line :: rest, cur, stack =>
    let l := strTrim line
    if l = "\x7d" then
      -- Case 1: close the current branch and give it to its parent
      match stack with
      | (parent, childName) :: stack2 =>
        runParse rest (branchInsert parent childName (.branch cur)) stack2
      | [] => .error "invalid VMF structure"
    else
      match matchLeaf l with
      | some (name, value) =>
        -- Case 2: a leaf entry for the current branch
        runParse rest (branchInsert cur name (.leaf value)) stack
      | none =>
        if l = "" then
          -- blank lines are skipped
          runParse rest cur stack
        else
          -- Case 3: a new branch opens; the next line must be exactly "\x7b"
          match rest with
          | [] => .error "malformed VMF syntax"
          | next :: rest2 =>
            if strTrim next = "\x7b" then
              runParse rest2 [] ((cur, l) :: stack)
            else .error "malformed VMF syntax"

/-- VMF::from_string: parse the lines starting from an empty root branch
and an empty stack; the root of the result is the final branch. -/
def parseVMF (lines : List String) : Except String VMFEntry :=
  (runParse lines [] []).map VMFEntry.branch

/-- Extracts the message of an error result. -/
def errOf {α : Type} : Except String α → Option String
  | .error m => some m
  | .ok _ => none

/-- Sequenced fallible map over a list (Rust collect over Result): stops
at the first error. -/
def mapME {α β : Type} (f : α → Except String β) : List α → Except String (List β)
  | [] => .ok []
  | a :: t =>
    match f a with
    | .error e => .error e
    | .ok b =>
      match mapME f t with
      | .error e => .error e
      | .ok bs => .ok (b :: bs)

/-- Sequenced partial map over a list, stopping at the first failure. -/
def mapMO {α β : Type} (f : α → Option β) : List α → Option (List β)
  | [] => some []
  | a :: t =>
    match f a with
    | none => none
    | some b =>
      match mapMO f t with
      | none => none
      | some bs => some (b :: bs)

/-! ### Well-formedness of parsed trees

Every key present in a parsed branch maps to a non-empty list: the parser
only ever creates singleton lists or pushes onto existing ones. This
invariant is what makes the get_one failure condition "absent or more
than one" rather than "length different from one".
-/

mutual

def entryWF : VMFEntry → Bool
  | .leaf _ => true
  | .branch b => branchWFb b

def branchWFb : List (String × List VMFEntry) → Bool
  | [] => true
  | (_, es) :: rest => !es.isEmpty && listWF es && branchWFb rest

def listWF : List VMFEntry → Bool
  | [] => true
  | e :: es => entryWF e && listWF es

end

/-! ### Rational 3-vectors (cgmath Vector3 f32, modelled exactly) -/

structure Vec3 where
  x : ℚ
  y : ℚ
  z : ℚ
deriving DecidableEq

def vadd (a b : Vec3) : Vec3 := ⟨a.x + b.x, a.y + b.y, a.z + b.z⟩

def vsub (a b : Vec3) : Vec3 := ⟨a.x - b.x, a.y - b.y, a.z - b.z⟩

def smul (s : ℚ) (v : Vec3) : Vec3 := ⟨s * v.x, s * v.y, s * v.z⟩

def vdot (a b : Vec3) : ℚ := a.x * b.x + a.y * b.y + a.z * b.z

/-- cgmath Vector3::cross. -/
def vcross (a b : Vec3) : Vec3 :=
  ⟨a.y * b.z - a.z * b.y, a.z * b.x - a.x * b.z, a.x * b.y - a.y * b.x⟩

/-- cgmath InnerSpace::normalize is self * (1 / magnitude); the square
root is a parameter of the model. -/
def vnormalize (sq : ℚ → ℚ) (v : Vec3) : Vec3 :=
  smul (1 / sq (vdot v v)) v

def vzero : Vec3 := ⟨0, 0, 0⟩

/-- Exact rational square root: returns the true square root whenever the
argument is a square of a rational, and a junk value 0 otherwise. It
agrees with f32 sqrt wherever the f32 computation is exact. -/
def ratSqrt (q : ℚ) : ℚ :=
  let n := Nat.sqrt q.num.toNat
  let d := Nat.sqrt q.den
  if (n * n : ℤ) = q.num ∧ (d * d : ℕ) = q.den then (n : ℚ) / d else 0

/-! ### Brush mesh extraction (src/src/world/map.rs lines 41-189)

Map::from_string minus the GPU buffer creation: the vertex and index
vectors it builds are the output. The f32 parser used by
VMFEntry::to_vertex and the square root used by normalize are parameters
of the model.
-/

structure MapOps where
  parseNum : String → Option ℚ
  sqrt : ℚ → ℚ

structure MapVertex where
  position : Vec3
  texCoords : ℚ × ℚ
  color : Vec3
deriving DecidableEq

/-- VMFEntry::to_vertex: the leaf value must split into exactly 3
space-separated fields, each parsing as a number. -/
def toVertex (ops : MapOps) (e : VMFEntry) : Except String Vec3 :=
  match e with
  | .leaf value =>
    let parts := splitSpaces value
    if parts.length ≠ 3 then .error "VMF vertex does not contain 3 entries"
    else
      match ops.parseNum (parts.getD 0 ""), ops.parseNum (parts.getD 1 ""),
            ops.parseNum (parts.getD 2 "") with
      | some xv, some yv, some zv => .ok ⟨xv, yv, zv⟩
      | _, _, _ => .error "float parse error"
  | .branch _ => .error "cannot convert VMF branch into vertex"

def TEXTURE_SCALE : ℚ := 256

/-- calculate_uvs: project onto the two world axes that contribute least
to the normal. -/
def calculateUVs (vertex normal : Vec3) : ℚ × ℚ :=
  if |normal.x| ≤ |normal.z| ∧ |normal.y| ≤ |normal.z| then
    (vertex.x / TEXTURE_SCALE, vertex.y / TEXTURE_SCALE)
  else if |normal.x| ≤ |normal.y| ∧ |normal.z| ≤ |normal.y| then
    (vertex.x / TEXTURE_SCALE, vertex.z / TEXTURE_SCALE)
  else
    (vertex.y / TEXTURE_SCALE, vertex.z / TEXTURE_SCALE)

/-- The fixed set of non-rendering tool materials of is_side_visible. -/
def toolMaterials : List String :=
  ["TOOLS/TOOLSNODRAW", "TOOLS/TOOLSPLAYERCLIP", "TOOLS/TOOLSCLIP",
   "TOOLS/TOOLSTRIGGER", "TOOLS/TOOLSHINT", "TOOLS/TOOLSSKIP"]

/-- is_side_visible: a side with no single material key, or whose material
is not a leaf string, is invisible; otherwise the uppercased material must
avoid the tool-material set. -/
def isSideVisible (side : VMFEntry) : Bool :=
  match getOne side "material" with
  | .error _ => false
  | .ok m =>
    match toStr m with
    | .error _ => false
    | .ok s => !(toolMaterials.contains (strUpper s))

/-- Side selection of Map::from_string: the sides of all world solids
followed by the sides of all func_detail entity solids, each solid's side
list filtered by is_side_visible before being appended. -/
def isDetailEntity (e : VMFEntry) : Bool :=
  match getOne e "classname" with
  | .error _ => false
  | .ok c => ((toStr c).toOption.getD "") = "func_detail"

def selectSides (root : VMFEntry) : Except String (List VMFEntry) :=
  match getOne root "world" with
  | .error e => .error e
  | .ok world =>
  match getAll world "solid" with
  | .error e => .error e
  | .ok worldSolids =>
  match getAll root "entity" with
  | .error e => .error e
  | .ok entities =>
  match mapME (fun e => getAll e "solid") (entities.filter isDetailEntity) with
  | .error e => .error e
  | .ok entitySolidLists =>
  match mapME (fun s => getAll s "side") worldSolids with
  | .error e => .error e
  | .ok worldSideLists =>
  match mapME (fun s => getAll s "side") entitySolidLists.flatten with
  | .error e => .error e
  | .ok entitySideLists =>
    .ok ((worldSideLists.map (fun l => l.filter isSideVisible)).flatten ++
         (entitySideLists.map (fun l => l.filter isSideVisible)).flatten)

/-- The vertex records one side contributes: every vertex of the face with
its projected texture coordinates and the face color. -/
def sideRecords (sideVertices : List Vec3) (normal color : Vec3) : List MapVertex :=
  sideVertices.map (fun v => ⟨v, calculateUVs v normal, color⟩)

/-- The fan indices one side contributes: for i in 1..(n-1) the source
pushes initial_index, initial_index+i+1, initial_index+i. -/
def fanIndices (initialIndex n : Nat) : List Nat :=
  (List.range (n - 2)).flatMap (fun j =>
    [initialIndex, initialIndex + j + 2, initialIndex + j + 1])

/-- The parsed vertex list of a side: the v leaves under its
vertices_plus key, each converted by to_vertex. -/
def sideVerticesOf (ops : MapOps) (side : VMFEntry) : Except String (List Vec3) :=
  match getOne side "vertices_plus" with
  | .error e => .error e
  | .ok vplus =>
    match getAll vplus "v" with
    | .error e => .error e
    | .ok vlist => mapME (toVertex ops) vlist

/-- Per-side processing of the main loop of Map::from_string: vertex
parsing, arity check, normal, material color, uv projection, fan
triangulation. -/
def buildSide (ops : MapOps) (initialIndex : Nat) (side : VMFEntry) :
    Except String (List MapVertex × List Nat) :=
  match sideVerticesOf ops side with
  | .error e => .error e
  | .ok sideVertices =>
    if sideVertices.length < 3 then
      .error "VMF contains face with less than 3 vertices"
    else
      let v0 := sideVertices.getD 0 vzero
      let v1 := sideVertices.getD 1 vzero
      let v2 := sideVertices.getD 2 vzero
      let cb := vsub v2 v1
      let ab := vsub v0 v1
      let normal := vnormalize ops.sqrt (vcross cb ab)
      match getOne side "material" with
      | .error e => .error e
      | .ok materialEntry =>
        match toStr materialEntry with
        | .error e => .error e
        | .ok materialStr =>
          let material := strUpper materialStr
          let color :=
            if material = "TOOLS/TOOLSSKYBOX" ∨ material = "TOOLS/TOOLSSKYBOX2D" then
              (⟨0, 1, 1⟩ : Vec3)
            else
              vadd (smul (1/2) normal) ⟨1/2, 1/2, 1/2⟩
          .ok (sideRecords sideVertices normal color,
               fanIndices initialIndex sideVertices.length)

/-- The accumulation loop over the selected sides: each side appends its
vertices and indices to the global buffers; indices are offset by the
number of vertices already emitted. -/
def buildSides (ops : MapOps) : List VMFEntry → List MapVertex → List Nat →
    Except String (List MapVertex × List Nat)
  | [], verts, inds => .ok (verts, inds)
  | side :: rest, verts, inds =>
    match buildSide ops verts.length side with
    | .error e => .error e
    | .ok r => buildSides ops rest (verts ++ r.1) (inds ++ r.2)

/-- Geometry extraction of Map::from_string on a parsed tree. -/
def mapExtract (ops : MapOps) (root : VMFEntry) :
    Except String (List MapVertex × List Nat) :=
  match selectSides root with
  | .error e => .error e
  | .ok sides => buildSides ops sides [] []

/-- Map::from_string: parse then extract. -/
def mapFromString (ops : MapOps) (lines : List String) :
    Except String (List MapVertex × List Nat) :=
  match parseVMF lines with
  | .error e => .error e
  | .ok root => mapExtract ops root

/-- Number of parsed vertices of a side, used to state the per-face
contribution counts. -/
def sideVertexCount (ops : MapOps) (side : VMFEntry) : Except String Nat :=
  (sideVerticesOf ops side).map List.length

/-- Concatenated fan index blocks for a list of face vertex counts,
starting at a given global vertex offset. -/
def fanBlocks (base : Nat) : List Nat → List Nat
  | [] => []
  | n :: rest => fanIndices base n ++ fanBlocks (base + n) rest

/-! ### Curve model (src/botpath_rust/src/world/spline/mod.rs)

The current tree keeps the spline mesh generator in the module whose
newest copy ships only its export half under src/src/world/spline; the
full generator is embedded from botpath_rust/src/world/spline/mod.rs,
the revision the remaining claims cite. Scalars are exact rationals; the
trigonometric primitives are parameters:
- sinDeg/cosDeg x model f32 sin/cos of x degrees (cgmath Deg sin_cos),
- sinTurn/cosTurn x model f32 sin/cos of x * TAU (the cross-section
  angle i / sides * TAU of the source),
- sqrt models f32 sqrt (used by normalize).
-/

structure TrigOps where
  sqrt : ℚ → ℚ
  sinDeg : ℚ → ℚ
  cosDeg : ℚ → ℚ
  sinTurn : ℚ → ℚ
  cosTurn : ℚ → ℚ

structure Color32 where
  r : Nat
  g : Nat
  b : Nat
  a : Nat
deriving DecidableEq

structure SplineControlPoint where
  position : Vec3
  pitch : ℚ
  yaw : ℚ
  tangentMagnitude : ℚ
  color : Color32
deriving DecidableEq

structure SplineData where
  points : List SplineControlPoint
  radius : ℚ
  sides : Nat
  subdivisions : Nat
  name : String
deriving DecidableEq

structure SplineVertex where
  position : Vec3
  tValue : ℚ
deriving DecidableEq

def defaultControlPoint : SplineControlPoint :=
  ⟨vzero, 0, 0, 0, ⟨255, 255, 255, 255⟩⟩

/-- SplineControlPoint::calculate_tangent:
direction(pitch, yaw) * tangent_magnitude. -/
def calculateTangent (ops : TrigOps) (p : SplineControlPoint) : Vec3 :=
  let sinPitch := ops.sinDeg p.pitch
  let cosPitch := ops.cosDeg p.pitch
  let sinYaw := ops.sinDeg p.yaw
  let cosYaw := ops.cosDeg p.yaw
  smul p.tangentMagnitude ⟨cosPitch * cosYaw, cosPitch * sinYaw, sinPitch⟩

/-- SplineControlPoint::interpolate: the cubic Hermite basis. -/
def interpolate (ops : TrigOps) (p q : SplineControlPoint) (t : ℚ) : Vec3 :=
  let tangentS := calculateTangent ops p
  let tangentO := calculateTangent ops q
  let posS := p.position
  let posO := q.position
  let t2 := t * t
  let t3 := t * t2
  vadd (vadd (smul (2*t3 - 3*t2 + 1) posS) (smul (t3 - 2*t2 + t) tangentS))
       (vadd (smul (-2*t3 + 3*t2) posO) (smul (t3 - t2) tangentO))

/-- SplineControlPoint::interp_tangent_dir: normalized analytic
derivative of the Hermite interpolation. -/
def interpTangentDir (ops : TrigOps) (p q : SplineControlPoint) (t : ℚ) : Vec3 :=
  let tangentS := calculateTangent ops p
  let tangentO := calculateTangent ops q
  let posS := p.position
  let posO := q.position
  let t2 := t * t
  vnormalize ops.sqrt
    (vadd (vadd (smul (6*t2 - 6*t) (vsub posS posO)) (smul (3*t2 - 4*t + 1) tangentS))
          (smul (3*t2 - 2*t) tangentO))

/-- subdiv_t = 1.0 / subdivisions. -/
def subdivT (data : SplineData) : ℚ := 1 / (data.subdivisions : ℚ)

/-- The sampled positions along the spline: every segment sampled at
 s * subdiv_t for s in 0..subdivisions, then the final control point. -/
def subdivPoints (ops : TrigOps) (data : SplineData) : List Vec3 :=
  ((List.range (data.points.length - 1)).flatMap (fun i =>
    (List.range data.subdivisions).map (fun (s : Nat) =>
      interpolate ops (data.points.getD i defaultControlPoint)
        (data.points.getD (i+1) defaultControlPoint) (subdivT data * (s : ℚ))))) ++
  [(data.points.getD (data.points.length - 1) defaultControlPoint).position]

/-- The sampled tangents along the spline, ending with the normalized
tangent of the final control point. -/
def subdivTangents (ops : TrigOps) (data : SplineData) : List Vec3 :=
  ((List.range (data.points.length - 1)).flatMap (fun i =>
    (List.range data.subdivisions).map (fun (s : Nat) =>
      interpTangentDir ops (data.points.getD i defaultControlPoint)
        (data.points.getD (i+1) defaultControlPoint) (subdivT data * (s : ℚ))))) ++
  [vnormalize ops.sqrt (calculateTangent ops
    (data.points.getD (data.points.length - 1) defaultControlPoint))]

def unitZ : Vec3 := ⟨0, 0, 1⟩

/-- The rotation-minimizing frame normal at sample index i, by the double
reflection method of the source: index 0 crosses the fixed up axis with
the first tangent; each later index reflects the previous normal and
tangent across the chord bisector, then reflects again across the
bisector of the reflected and the new tangent. -/
def rmfNormal (ops : TrigOps) (pts tans : List Vec3) : Nat → Vec3
  | 0 => vnormalize ops.sqrt (vcross unitZ (tans.getD 0 vzero))
  | i + 1 =>
    let nPrev := rmfNormal ops pts tans i
    let rl := vsub (pts.getD (i+1) vzero) (pts.getD i vzero)
    let nl := vsub nPrev (smul (2 / vdot rl rl * vdot rl nPrev) rl)
    let tPrev := tans.getD i vzero
    let tl := vsub tPrev (smul (2 / vdot rl rl * vdot rl tPrev) rl)
    let rr := vsub (tans.getD (i+1) vzero) tl
    vsub nl (smul (2 / vdot rr rr * vdot rr nl) rr)

/-- The frame binormal: tangent cross normal, at every index. -/
def rmfBinormal (ops : TrigOps) (pts tans : List Vec3) (i : Nat) : Vec3 :=
  vcross (tans.getD i vzero) (rmfNormal ops pts tans i)

/-- The cross-section offsets: for i in 0..sides the source pushes
angle.sin_cos() of angle = i / sides * TAU, i.e. the PAIR
(sin angle, cos angle) in that order. -/
def polyPositions (ops : TrigOps) (sides : Nat) : List (ℚ × ℚ) :=
  (List.range sides).map (fun (i : Nat) =>
    (ops.sinTurn ((i : ℚ) / (sides : ℚ)), ops.cosTurn ((i : ℚ) / (sides : ℚ))))

/-- The tube vertices: one ring per sample; each cross-section pair
(s, c) = (sin angle, cos angle) yields
sample + (s * normal + c * binormal) * radius, tagged i * subdiv_t. -/
def splineVertices (ops : TrigOps) (data : SplineData) : List SplineVertex :=
  (List.range (subdivPoints ops data).length).flatMap (fun i =>
    (polyPositions ops data.sides).map (fun pp =>
      { position := vadd ((subdivPoints ops data).getD i vzero)
          (smul data.radius
            (vadd (smul pp.1 (rmfNormal ops (subdivPoints ops data)
                    (subdivTangents ops data) i))
                  (smul pp.2 (rmfBinormal ops (subdivPoints ops data)
                    (subdivTangents ops data) i))))
        tValue := (i : ℚ) * subdivT data }))

/-- Wrapping u32 subtraction (release-mode Rust semantics), for inputs
below 2^32. -/
def wsub32 (a b : Nat) : Nat := (a + 2 ^ 32 - b) % 2 ^ 32

/-- One end-cap fan: for i in 1..(sides - 1) the source pushes base,
base+i, base+i+1. The loop bound sides - 1 is u32 arithmetic, so it wraps
for sides = 0. -/
def capIndices (sides base : Nat) : List Nat :=
  (List.range' 1 (wsub32 sides 1 - 1)).flatMap (fun i =>
    [base, base + i, base + i + 1])

/-- The double-triangle quad strip between each pair of consecutive
sample rings, wrapping the side index modulo the side count. -/
def stripIndices (sides nPts : Nat) : List Nat :=
  (List.range (nPts - 1)).flatMap (fun subdiv =>
    (List.range sides).flatMap (fun i =>
      let baseI := subdiv * sides
      let nextBaseI := (subdiv + 1) * sides
      let nextI := (i + 1) % sides
      [baseI + nextI, baseI + i, nextBaseI + nextI,
       baseI + i, nextBaseI + i, nextBaseI + nextI]))

/-- The index buffer: first end cap, ring strips, last end cap. -/
def splineIndices (ops : TrigOps) (data : SplineData) : List Nat :=
  let nPts := (subdivPoints ops data).length
  capIndices data.sides 0 ++ stripIndices data.sides nPts ++
  capIndices data.sides ((nPts - 1) * data.sides)

/-- The mesh rebuild of Spline::update: buffers are cleared, and rebuilt
only when at least one control point exists (the source comment:
processing relies on at least one point, so skip if we have none). -/
def buildMesh (ops : TrigOps) (data : SplineData) : List SplineVertex × List Nat :=
  if data.points.length > 0 then
    (splineVertices ops data, splineIndices ops data)
  else ([], [])

/-! ### Exact instantiations of the abstract scalar operations

Used for concrete evaluations. Each function is exact precisely where the
f32 computation it models is exact (angle 0, quarter turns on exact
inputs, perfect-square square roots); elsewhere it returns a junk value
that no evaluation below depends on.
-/

/-- Sine of x degrees, exact at the axis angles. -/
def degSin (x : ℚ) : ℚ :=
  let f := x - 360 * ((x / 360 : ℚ).floor : ℚ)
  if f = 0 then 0 else if f = 90 then 1
  else if f = 180 then 0 else if f = 270 then -1 else 0

/-- Cosine of x degrees, exact at the axis angles. -/
def degCos (x : ℚ) : ℚ :=
  let f := x - 360 * ((x / 360 : ℚ).floor : ℚ)
  if f = 0 then 1 else if f = 90 then 0
  else if f = 180 then -1 else if f = 270 then 0 else 0

/-- Sine of x turns (x * TAU radians), exact at quarter turns. -/
def turnSin (x : ℚ) : ℚ :=
  let f := x - ((x.floor : ℚ))
  if f = 0 then 0 else if f = 1/4 then 1
  else if f = 1/2 then 0 else if f = 3/4 then -1 else 0

/-- Cosine of x turns, exact at quarter turns. -/
def turnCos (x : ℚ) : ℚ :=
  let f := x - ((x.floor : ℚ))
  if f = 0 then 1 else if f = 1/4 then 0
  else if f = 1/2 then -1 else if f = 3/4 then 0 else 0

def exactOps : TrigOps :=
  { sqrt := ratSqrt, sinDeg := degSin, cosDeg := degCos,
    sinTurn := turnSin, cosTurn := turnCos }

/-- A simple exact number parser (decimal integers), a legitimate
instantiation of the abstracted f32 parser for integer-valued inputs. -/
def parseInt (s : String) : Option ℚ :=
  match s.data with
  | [] => none
  | '-' :: ds =>
    if ds ≠ [] ∧ ds.all Char.isDigit then
      some (-(ds.foldl (fun a c => a * 10 + (c.toNat - 48)) 0 : ℚ))
    else none
  | ds =>
    if ds.all Char.isDigit then
      some ((ds.foldl (fun a c => a * 10 + (c.toNat - 48)) 0 : ℚ))
    else none

def exactMapOps : MapOps := { parseNum := parseInt, sqrt := ratSqrt }

/-! ### Per-control-point color buffer (Spline::update lines 303-321)

The stored Color32 is four bytes. egui Rgba::from(Color32) converts the
gamma-encoded r, g, b bytes to linear floats (abstracted as the parameter
gammaOf) and the alpha byte linearly to a / 255. Color32::to_opaque
un-premultiplies the rgb bytes (abstracted as the parameter opaqueRgb)
and sets the alpha byte to 255. Rgba::from_rgb sets the float alpha to 1.
-/

/-- egui Rgba::from(Color32): gamma bytes to linear floats, alpha byte
scaled linearly. -/
def rgbaFromColor32 (gammaOf : Nat → ℚ) (c : Color32) : ℚ × ℚ × ℚ × ℚ :=
  (gammaOf c.r, gammaOf c.g, gammaOf c.b, (c.a : ℚ) / 255)

/-- egui Color32::to_opaque: un-premultiplied rgb bytes with alpha 255. -/
def color32ToOpaque (opaqueRgb : Color32 → Nat × Nat × Nat) (c : Color32) : Color32 :=
  ⟨(opaqueRgb c).1, (opaqueRgb c).2.1, (opaqueRgb c).2.2, 255⟩

/-- The four floats written for one control point: the selected point is
inverted from its opaque color via Rgba::from_rgb (which carries alpha
1.0); any other point is written as Rgba::from of its stored color. -/
def pointColorEntry (gammaOf : Nat → ℚ) (opaqueRgb : Color32 → Nat × Nat × Nat)
    (selected : Bool) (c : Color32) : ℚ × ℚ × ℚ × ℚ :=
  if selected then
    let q := rgbaFromColor32 gammaOf (color32ToOpaque opaqueRgb c)
    (1 - q.1, 1 - q.2.1, 1 - q.2.2.1, 1)
  else rgbaFromColor32 gammaOf c

/-- The whole buffer refreshed by Spline::update: one rgba quadruple per
control point, in order, inverting exactly the index equal to
selected_point. -/
def pointColorVec (gammaOf : Nat → ℚ) (opaqueRgb : Color32 → Nat × Nat × Nat)
    (points : List SplineControlPoint) (selectedPoint : Nat) : List (ℚ × ℚ × ℚ × ℚ) :=
  (List.range points.length).map (fun i =>
    pointColorEntry gammaOf opaqueRgb (i = selectedPoint)
      (points.getD i defaultControlPoint).color)

/-- What the specification sentence describes for one point: the stored
color unchanged, except the selected point inverted in rgb with ITS OWN
alpha. Stated over the same float conversion for comparison. -/
def specColorEntry (gammaOf : Nat → ℚ) (selected : Bool) (c : Color32) : ℚ × ℚ × ℚ × ℚ :=
  let q := rgbaFromColor32 gammaOf c
  if selected then (1 - q.1, 1 - q.2.1, 1 - q.2.2.1, q.2.2.2) else q

/-- Concrete gamma conversion used in evaluations; the divergence proved
below is alpha-only and holds for every gamma conversion. -/
def linGamma (n : Nat) : ℚ := (n : ℚ) / 255

def idOpaqueRgb (c : Color32) : Nat × Nat × Nat := (c.r, c.g, c.b)

/-! ### SMD export color quantization (src/src/world/spline/export.rs
lines 122-141)

The blended triangle color is a Color32, read back as four 8-bit
unmultiplied srgba channels. Each channel is integer-divided by 8 and the
four quotients packed into one UV pair. All the f32 arithmetic here
(values of the form (k + 0.5) / 1024 with k < 1024) is exact, so the
rational model is faithful bit for bit.
-/

def quantChannel (c : Nat) : Nat := c / 8

/-- The packed UV pair: u from the quantized r and g, v from one minus
the packed quantized b and a. -/
def smdUV (r g b a : Nat) : ℚ × ℚ :=
  (((quantChannel r : ℚ) + (quantChannel g : ℚ) * 32 + 1/2) / 1024,
   1 - (((quantChannel b : ℚ) + (quantChannel a : ℚ) * 32 + 1/2) / 1024))

/-- The material reference written for a triangle: the opaque variant
exactly for quantized alpha 31. -/
def smdMaterialName (a : Nat) : String :=
  if quantChannel a = 31 then "spline.vmt" else "spline-transparent.vmt"

/-! ### Curve set persistence (src/src/world/mod.rs lines 193-212)

save_state serializes Vec of SplineData with serde_json; restore_state
deserializes, then for each record builds a fresh spline, installs the
data, sets selected_point to the point count and requests a rebuild.
The JSON value tree is modelled explicitly; numbers carry exact values
(serde_json prints floats with the shortest round-tripping decimal, so
the float round trip is exact).
-/

inductive Json where
  | num : ℚ → Json
  | str : String → Json
  | arr : List Json → Json
  | obj : List (String × Json) → Json

def jLookup (l : List (String × Json)) (k : String) : Option Json :=
  match l with
  | [] => none
  | (k2, v) :: rest => if k2 = k then some v else jLookup rest k

def encodeColor (c : Color32) : Json :=
  .arr [.num c.r, .num c.g, .num c.b, .num c.a]

def encodeVec3 (v : Vec3) : Json :=
  .obj [("x", .num v.x), ("y", .num v.y), ("z", .num v.z)]

def encodeControlPoint (p : SplineControlPoint) : Json :=
  .obj [("position", encodeVec3 p.position), ("pitch", .num p.pitch),
        ("yaw", .num p.yaw), ("tangent_magnitude", .num p.tangentMagnitude),
        ("color", encodeColor p.color)]

def encodeSplineData (d : SplineData) : Json :=
  .obj [("points", .arr (d.points.map encodeControlPoint)),
        ("radius", .num d.radius), ("sides", .num d.sides),
        ("subdivisions", .num d.subdivisions), ("name", .str d.name)]

def decodeNum : Json → Option ℚ
  | .num q => some q
  | _ => none

def decodeNat (j : Json) : Option Nat :=
  match j with
  | .num q => if q.den = 1 ∧ 0 ≤ q.num then some q.num.toNat else none
  | _ => none

def decodeStr : Json → Option String
  | .str s => some s
  | _ => none

def decodeColor : Json → Option Color32
  | .arr [jr, jg, jb, ja] => do
    let r ← decodeNat jr
    let g ← decodeNat jg
    let b ← decodeNat jb
    let a ← decodeNat ja
    pure ⟨r, g, b, a⟩
  | _ => none

def decodeVec3 (j : Json) : Option Vec3 :=
  match j with
  | .obj fields => do
    let x ← (jLookup fields "x").bind decodeNum
    let y ← (jLookup fields "y").bind decodeNum
    let z ← (jLookup fields "z").bind decodeNum
    pure ⟨x, y, z⟩
  | _ => none

def decodeControlPoint (j : Json) : Option SplineControlPoint :=
  match j with
  | .obj fields => do
    let pos ← (jLookup fields "position").bind decodeVec3
    let pitch ← (jLookup fields "pitch").bind decodeNum
    let yaw ← (jLookup fields "yaw").bind decodeNum
    let mag ← (jLookup fields "tangent_magnitude").bind decodeNum
    let color ← (jLookup fields "color").bind decodeColor
    pure ⟨pos, pitch, yaw, mag, color⟩
  | _ => none

def decodeSplineData (j : Json) : Option SplineData :=
  match j with
  | .obj fields => do
    let pointsJson ← jLookup fields "points"
    let points ←
      match pointsJson with
      | .arr l => mapMO decodeControlPoint l
      | _ => none
    let radius ← (jLookup fields "radius").bind decodeNum
    let sides ← (jLookup fields "sides").bind decodeNat
    let subdivisions ← (jLookup fields "subdivisions").bind decodeNat
    let name ← (jLookup fields "name").bind decodeStr
    pure ⟨points, radius, sides, subdivisions, name⟩
  | _ => none

/-- World::save_state: the serialized list of per-spline data records. -/
def saveState (splines : List SplineData) : Json :=
  .arr (splines.map encodeSplineData)

/-- A restored spline as World::restore_state builds it: Spline::new with
the deserialized data installed, selected_point set to the point count
and the reconstruct_mesh flag set by request_rebuild. -/
structure RestoredSpline where
  data : SplineData
  selectedPoint : Nat
  reconstructMesh : Bool
deriving DecidableEq

/-- World::restore_state on a serialized state. -/
def restoreState (j : Json) : Option (List RestoredSpline) :=
  match j with
  | .arr l => (mapMO decodeSplineData l).map (fun ds =>
      ds.map (fun d => ⟨d, d.points.length, true⟩))
  | _ => none

/-! ### Point editing operations (Spline::process_events lines 129-189,
Spline::add_before_selected lines 354-366, World::restore_state)

Only the point list and the selection index matter for the selection
invariant; they are modelled as one record.
-/

structure EditState where
  points : List SplineControlPoint
  selectedPoint : Nat
deriving DecidableEq

/-- The selection invariant: selected_point may range over the point
indices plus the one-past-the-end append position. -/
def selectionInv (st : EditState) : Prop := st.selectedPoint ≤ st.points.length

/-- The Space handler: append a camera-placed point when the selection
sits at the append position (inheriting tangent magnitude and color from
the previous point when one exists), otherwise replace the selected point
(inheriting from the replaced point); then advance the selection. -/
def placePoint (st : EditState) (camPos : Vec3) (camPitch camYaw : ℚ) : EditState :=
  let base : SplineControlPoint :=
    ⟨camPos, camPitch, camYaw, 512, ⟨255, 255, 255, 255⟩⟩
  if st.selectedPoint = st.points.length then
    let np :=
      if st.selectedPoint ≠ 0 then
        let prev := st.points.getD (st.selectedPoint - 1) defaultControlPoint
        { base with tangentMagnitude := prev.tangentMagnitude, color := prev.color }
      else base
    ⟨st.points ++ [np], st.selectedPoint + 1⟩
  else
    let cur := st.points.getD st.selectedPoint defaultControlPoint
    let np := { base with tangentMagnitude := cur.tangentMagnitude, color := cur.color }
    ⟨st.points.set st.selectedPoint np, st.selectedPoint + 1⟩

/-- The ArrowLeft handler. -/
def moveSelectionLeft (st : EditState) : EditState :=
  if st.selectedPoint ≠ 0 then ⟨st.points, st.selectedPoint - 1⟩ else st

/-- The ArrowRight handler. -/
def moveSelectionRight (st : EditState) : EditState :=
  if st.selectedPoint < st.points.length then ⟨st.points, st.selectedPoint + 1⟩ else st

/-- Spline::add_before_selected: indexes points[selected_point], so it
only completes when a point is selected (the GUI enables it exactly
then); it inserts the derived point at the selection index. -/
def addBeforeSelected (ops : TrigOps) (st : EditState) : Option EditState :=
  if st.selectedPoint < st.points.length then
    let sel := st.points.getD st.selectedPoint defaultControlPoint
    let np : SplineControlPoint :=
      ⟨vsub sel.position (calculateTangent ops sel), sel.pitch, sel.yaw,
       sel.tangentMagnitude, sel.color⟩
    some ⟨st.points.insertIdx st.selectedPoint np, st.selectedPoint⟩
  else none

/-- The restore_state step for one spline, viewed as an editing state. -/
def restoredEditState (d : SplineData) : EditState :=
  ⟨d.points, d.points.length⟩

/-! ### Concrete data used in evaluations

The control points use tangent magnitude 1135 oriented along the x axis so
that every normalization below takes the square root of a perfect square,
exactly as the corresponding f32 computation is exact there.
-/

def defaultSplineVertex : SplineVertex := ⟨vzero, 0⟩

def whiteColor : Color32 := ⟨255, 255, 255, 255⟩

/-- A control point at the origin aiming along +x with unit tangent. -/
def cpOrigin : SplineControlPoint := ⟨⟨0, 0, 0⟩, 0, 0, 1, whiteColor⟩

/-- A second control point straight ahead of cpOrigin. -/
def cpAhead : SplineControlPoint := ⟨⟨8, 0, 0⟩, 0, 0, 1, whiteColor⟩

/-- A curve with no control points. -/
def curveNone : SplineData := ⟨[], 4, 3, 16, ""⟩

/-- A curve with exactly one control point, the default 3 sides and 16
subdivisions of Spline::new. -/
def curveSingle : SplineData := ⟨[cpOrigin], 4, 3, 16, ""⟩

/-- A two-point curve with a square cross-section and one subdivision per
segment. -/
def curveTwo : SplineData := ⟨[cpOrigin, cpAhead], 4, 4, 1, ""⟩

/-- A one-point curve whose side count is zero, reachable by restoring a
serialized state (the UI clamp to at least 1 does not apply there). -/
def curveZeroSides : SplineData := ⟨[cpOrigin], 4, 0, 16, ""⟩

/-- A one-point curve with side count 1. -/
def curveOneSide : SplineData := ⟨[cpOrigin], 4, 1, 16, ""⟩

/-- A visible quad face: four integer vertices and an ordinary wall
material. -/
def sideVisibleQuad : VMFEntry :=
  .branch [("vertices_plus",
             [.branch [("v", [.leaf "0 0 0", .leaf "1 0 0",
                              .leaf "1 1 0", .leaf "0 1 0"])]]),
           ("material", [.leaf "WALL01"])]

/-- A nodraw triangle face that the extractor must drop. -/
def sideNodrawTri : VMFEntry :=
  .branch [("vertices_plus",
             [.branch [("v", [.leaf "0 0 0", .leaf "1 0 0", .leaf "1 1 0"])]]),
           ("material", [.leaf "tools/toolsnodraw"])]

/-- A map tree with one world solid holding the two faces above. -/
def mapRootQuad : VMFEntry :=
  .branch [("world", [.branch [("solid",
    [.branch [("side", [sideVisibleQuad, sideNodrawTri])]])]])]

/-- A small well-formed branch for lookup evaluations: one single-valued
key and one repeated key. -/
def branchKM : VMFBranch :=
  [("k", [.leaf "v"]), ("m", [.leaf "a", .leaf "b"])]

/-- A transparent-black control point (stored alpha 0), selected in the
color-buffer evaluations. -/
def cpTransparent : SplineControlPoint := ⟨⟨0, 0, 0⟩, 0, 0, 1, ⟨0, 0, 0, 0⟩⟩

/-- The spline data of the persistence evaluation. -/
def persistData : SplineData :=
  ⟨[⟨⟨1, -2, 3/2⟩, 30, -45, 512, ⟨12, 34, 56, 78⟩⟩], 4, 3, 16, "loop"⟩

/-- The editing state of the invariant evaluations: two points with the
first selected. -/
def editTwo : EditState := ⟨[cpOrigin, cpAhead], 0⟩

/-! ### Shared list lemmas -/

theorem getD_map_range {α : Type} (f : Nat → α) (n i : Nat) (d : α) (h : i < n) :
    ((List.range n).map f).getD i d = f i := by
  simp [List.getD_eq_getElem?_getD, List.getElem?_map, List.getElem?_range h]

theorem getD_flatMap_blocks {α : Type} (g : Nat → Nat → α) (m : Nat) (d : α) :
    ∀ (cnt base i k : Nat), i < cnt → k < m →
    (((List.range' base cnt).flatMap (fun i2 => (List.range m).map (g i2))).getD
        (i * m + k) d) = g (base + i) k := by
  intro cnt
  induction cnt with
  | zero => exact fun base i k hi _ => absurd hi (Nat.not_lt_zero i)
  | succ c ih =>
    intro base i k hi hk
    rw [List.range'_succ, List.flatMap_cons]
    cases i with
    | zero =>
      simp only [Nat.zero_mul, Nat.zero_add, Nat.add_zero]
      rw [List.getD_eq_getElem?_getD, List.getElem?_append_left (by simpa using hk),
        List.getElem?_map, List.getElem?_range hk]
      rfl
    | succ j =>
      have hm : m ≤ (j + 1) * m + k :=
        Nat.le_trans (Nat.le_mul_of_pos_left m (Nat.succ_pos j)) (Nat.le_add_right _ _)
      rw [List.getD_eq_getElem?_getD,
        List.getElem?_append_right (by simpa using hm)]
      have hidx : (j + 1) * m + k - ((List.range m).map (g base)).length = j * m + k := by
        have h1 : (j + 1) * m = j * m + m := by ring
        simp only [List.length_map, List.length_range, h1]
        omega
      rw [hidx, ← List.getD_eq_getElem?_getD]
      have := ih (base + 1) j k (Nat.lt_of_succ_lt_succ hi) hk
      rw [this]
      congr 1
      omega

theorem length_flatMap_const {α β : Type} (l : List α) (f : α → List β) (m : Nat)
    (h : ∀ a ∈ l, (f a).length = m) : (l.flatMap f).length = l.length * m := by
  induction l with
  | nil => simp
  | cons a t ih =>
    simp only [List.flatMap_cons, List.length_append, List.length_cons]
    rw [h a (List.mem_cons_self a t), ih (fun b hb => h b (List.mem_cons_of_mem a hb))]
    ring

/-! ### Claim C8 -/

/-- C8: for every exported triangle with blended 8-bit channels r, g, b,
a, each channel is quantized by integer division by 8 into 0..31; the
four quantized channels pack into the single UV pair
u = ((qr + qg*32) + 0.5)/1024 and v = 1 - ((qb + qa*32) + 0.5)/1024; and
the material is the opaque variant spline.vmt exactly when the quantized
alpha is 31 (equivalently, the 8-bit alpha is at least 248). -/
theorem c8_quantize_pack (r g b a : Nat)
    (hr : r < 256) (hg : g < 256) (hb : b < 256) (ha : a < 256) :
    (quantChannel r ≤ 31 ∧ quantChannel g ≤ 31 ∧
     quantChannel b ≤ 31 ∧ quantChannel a ≤ 31) ∧
    smdUV r g b a =
      ((((quantChannel r + quantChannel g * 32 : Nat) : ℚ) + 1/2) / 1024,
       1 - ((((quantChannel b + quantChannel a * 32 : Nat) : ℚ) + 1/2) / 1024)) ∧
    (smdMaterialName a = "spline.vmt" ↔ quantChannel a = 31) ∧
    (quantChannel a = 31 ↔ 248 ≤ a) := by
  refine ⟨⟨?_, ?_, ?_, ?_⟩, ?_, ?_, ?_⟩
  · simp only [quantChannel]; omega
  · simp only [quantChannel]; omega
  · simp only [quantChannel]; omega
  · simp only [quantChannel]; omega
  · simp only [smdUV]
    push_cast
    ring_nf
  · by_cases h : quantChannel a = 31
    · simp [smdMaterialName, h]
    · simp only [smdMaterialName, if_neg h]
      constructor
      · intro he
        exact absurd he (by decide)
      · intro hq
        exact absurd hq h
  · simp only [quantChannel]; omega

/-- C8 witness: evaluation at full white (opaque material) and at alpha
247 (translucent material). -/
theorem c8_witness :
    ((quantChannel 255 ≤ 31 ∧ quantChannel 255 ≤ 31 ∧
      quantChannel 255 ≤ 31 ∧ quantChannel 255 ≤ 31) ∧
     smdUV 255 255 255 255 =
       ((((quantChannel 255 + quantChannel 255 * 32 : Nat) : ℚ) + 1/2) / 1024,
        1 - ((((quantChannel 255 + quantChannel 255 * 32 : Nat) : ℚ) + 1/2) / 1024)) ∧
     (smdMaterialName 255 = "spline.vmt" ↔ quantChannel 255 = 31) ∧
     (quantChannel 255 = 31 ↔ 248 ≤ 255)) ∧
    ((quantChannel 10 ≤ 31 ∧ quantChannel 20 ≤ 31 ∧
      quantChannel 30 ≤ 31 ∧ quantChannel 247 ≤ 31) ∧
     smdUV 10 20 30 247 =
       ((((quantChannel 10 + quantChannel 20 * 32 : Nat) : ℚ) + 1/2) / 1024,
        1 - ((((quantChannel 30 + quantChannel 247 * 32 : Nat) : ℚ) + 1/2) / 1024)) ∧
     (smdMaterialName 247 = "spline.vmt" ↔ quantChannel 247 = 31) ∧
     (quantChannel 247 = 31 ↔ 248 ≤ 247)) :=
  ⟨c8_quantize_pack 255 255 255 255 (by decide) (by decide) (by decide) (by decide),
   c8_quantize_pack 10 20 30 247 (by decide) (by decide) (by decide) (by decide)⟩

/-! ### Claim C10 -/

/-- C10: every completed point-editing operation preserves the selection
invariant 0 <= selected_point <= points.len(): placing a point (append at
the one-past-the-end position, replace otherwise), moving the selection
left or right, inserting before the selection (which only completes when
a point is selected), and restoring a curve from serialized state (which
selects the append position). -/
theorem c10_selection_invariant :
    (∀ st pos pitch yaw, selectionInv st →
       selectionInv (placePoint st pos pitch yaw)) ∧
    (∀ st, selectionInv st → selectionInv (moveSelectionLeft st)) ∧
    (∀ st, selectionInv st → selectionInv (moveSelectionRight st)) ∧
    (∀ ops st st2, addBeforeSelected ops st = some st2 → selectionInv st2) ∧
    (∀ d, selectionInv (restoredEditState d)) := by
  refine ⟨?_, ?_, ?_, ?_, ?_⟩
  · intro st pos pitch yaw hinv
    by_cases h : st.selectedPoint = st.points.length
    · simp only [placePoint, if_pos h, selectionInv, List.length_append,
        List.length_cons, List.length_nil]
      omega
    · simp only [placePoint, if_neg h, selectionInv, List.length_set]
      exact Nat.succ_le_of_lt (Nat.lt_of_le_of_ne hinv h)
  · intro st hinv
    by_cases h : st.selectedPoint ≠ 0
    · simp only [moveSelectionLeft, if_pos h, selectionInv]
      exact Nat.le_trans (Nat.sub_le _ _) hinv
    · simpa only [moveSelectionLeft, if_neg h] using hinv
  · intro st hinv
    by_cases h : st.selectedPoint < st.points.length
    · simp only [moveSelectionRight, if_pos h, selectionInv]
      exact Nat.succ_le_of_lt h
    · simpa only [moveSelectionRight, if_neg h] using hinv
  · intro ops st st2 hcall
    by_cases h : st.selectedPoint < st.points.length
    · simp only [addBeforeSelected, if_pos h, Option.some.injEq] at hcall
      subst hcall
      simp only [selectionInv, List.length_insertIdx _ _ (Nat.le_of_lt h)]
      omega
    · simp [addBeforeSelected, if_neg h] at hcall
  · intro d
    simp [selectionInv, restoredEditState]

/-- C10 witness: the operations evaluated on a two-point state with the
first point selected, and a restore of persistData. -/
theorem c10_witness :
    selectionInv (placePoint editTwo ⟨1, 2, 3⟩ 0 0) ∧
    selectionInv (moveSelectionLeft editTwo) ∧
    selectionInv (moveSelectionRight editTwo) ∧
    selectionInv (⟨(editTwo.points.insertIdx 0
      ⟨vsub cpOrigin.position (calculateTangent exactOps cpOrigin), cpOrigin.pitch,
       cpOrigin.yaw, cpOrigin.tangentMagnitude, cpOrigin.color⟩), 0⟩ : EditState) ∧
    selectionInv (restoredEditState persistData) :=
  ⟨c10_selection_invariant.1 editTwo ⟨1, 2, 3⟩ 0 0 (Nat.zero_le _),
   c10_selection_invariant.2.1 editTwo (Nat.zero_le _),
   c10_selection_invariant.2.2.1 editTwo (Nat.zero_le _),
   c10_selection_invariant.2.2.2.1 exactOps editTwo _ (by with_unfolding_all rfl),
   c10_selection_invariant.2.2.2.2 persistData⟩

/-! ### Claim C7 -/

theorem decodeNat_natCast (n : Nat) : decodeNat (.num (n : ℚ)) = some n := by
  simp [decodeNat, Rat.den_natCast, Rat.num_natCast, Int.natCast_nonneg]

theorem decodeColor_encodeColor (c : Color32) :
    decodeColor (encodeColor c) = some c := by
  simp [encodeColor, decodeColor, decodeNat_natCast]

theorem decodeVec3_encodeVec3 (v : Vec3) : decodeVec3 (encodeVec3 v) = some v := by
  simp [encodeVec3, decodeVec3, jLookup, decodeNum]

theorem decodeControlPoint_encode (p : SplineControlPoint) :
    decodeControlPoint (encodeControlPoint p) = some p := by
  simp [encodeControlPoint, decodeControlPoint, jLookup, decodeNum,
    decodeVec3_encodeVec3, decodeColor_encodeColor]

theorem mapMO_decodeControlPoint (l : List SplineControlPoint) :
    mapMO decodeControlPoint (l.map encodeControlPoint) = some l := by
  induction l with
  | nil => rfl
  | cons p t ih => simp [mapMO, decodeControlPoint_encode, ih]

theorem decodeSplineData_encode (d : SplineData) :
    decodeSplineData (encodeSplineData d) = some d := by
  simp [encodeSplineData, decodeSplineData, jLookup, decodeNum, decodeStr,
    decodeNat_natCast, mapMO_decodeControlPoint]

theorem mapMO_decodeSplineData (l : List SplineData) :
    mapMO decodeSplineData (l.map encodeSplineData) = some l := by
  induction l with
  | nil => rfl
  | cons d t ih => simp [mapMO, decodeSplineData_encode, ih]

/-- C7: restoring a saved curve set reproduces every curve record exactly
(control points with position, pitch, yaw, tangent magnitude and color,
plus radius, side count, subdivision count and name), selects the append
position, and starts every restored curve with its reconstruct_mesh flag
set, so the next update performs a full rebuild. -/
theorem c7_save_restore_roundtrip (splines : List SplineData) :
    restoreState (saveState splines) =
      some (splines.map (fun d => ⟨d, d.points.length, true⟩)) := by
  simp [saveState, restoreState, mapMO_decodeSplineData]

/-! ### Mesh shape lemmas shared by the rebuild claims -/

theorem polyPositions_length (ops : TrigOps) (sides : Nat) :
    (polyPositions ops sides).length = sides := by
  unfold polyPositions
  rw [List.length_map, List.length_range]

theorem splineVertices_length (ops : TrigOps) (data : SplineData) :
    (splineVertices ops data).length = (subdivPoints ops data).length * data.sides := by
  unfold splineVertices
  rw [length_flatMap_const (List.range (subdivPoints ops data).length) _ data.sides
    (fun a _ => by rw [List.length_map, polyPositions_length])]
  rw [List.length_range]

theorem capIndices_length (sides base : Nat) :
    (capIndices sides base).length = 3 * (wsub32 sides 1 - 1) := by
  unfold capIndices
  rw [length_flatMap_const (List.range' 1 (wsub32 sides 1 - 1))
    (fun i => [base, base + i, base + i + 1]) 3 (fun a _ => rfl), List.length_range']
  ring

theorem subdivPoints_single (ops : TrigOps) (data : SplineData)
    (p : SplineControlPoint) (h : data.points = [p]) :
    (subdivPoints ops data).length = 1 := by
  simp [subdivPoints, h]

/-! ### Claim C1 -/

/-- C1 counterexample: the claim says every curve with fewer than 2
control points rebuilds to an empty mesh, but the source only skips the
rebuild for 0 points; with exactly one control point (and the default 3
sides) it emits one 3-vertex ring and two end-cap triangles. -/
theorem c1_counterexample :
    curveSingle.points.length < 2 ∧
    (buildMesh exactOps curveSingle).1 ≠ [] ∧
    (buildMesh exactOps curveSingle).1.length = 3 ∧
    (buildMesh exactOps curveSingle).2.length = 6 := by
  refine ⟨by decide, ?_, ?_, ?_⟩
  · with_unfolding_all decide
  · with_unfolding_all decide
  · with_unfolding_all decide

/-- C1 amended: a curve with 0 control points rebuilds to an empty mesh,
but a curve with exactly 1 control point rebuilds to a non-empty mesh of
one cross-section ring (sides vertices) plus the two end-cap fans over
that single ring. -/
theorem c1_rebuild_below_two_points :
    (∀ ops data, data.points = [] → buildMesh ops data = ([], [])) ∧
    (∀ ops data p, data.points = [p] →
      (buildMesh ops data).1.length = data.sides ∧
      (buildMesh ops data).2 =
        capIndices data.sides 0 ++ capIndices data.sides 0) := by
  constructor
  · intro ops data h
    simp [buildMesh, h]
  · intro ops data p h
    have hp : 0 < data.points.length := by rw [h]; simp
    have hn : (subdivPoints ops data).length = 1 := subdivPoints_single ops data p h
    have hb : buildMesh ops data = (splineVertices ops data, splineIndices ops data) := by
      simp [buildMesh, hp]
    rw [hb]
    constructor
    · rw [splineVertices_length, hn, Nat.one_mul]
    · simp [splineIndices, hn, stripIndices]

/-- C1 witness: the amended statement evaluated on a curve with no
points and on the single-point curve. -/
theorem c1_witness :
    buildMesh exactOps curveNone = ([], []) ∧
    ((buildMesh exactOps curveSingle).1.length = curveSingle.sides ∧
     (buildMesh exactOps curveSingle).2 =
       capIndices curveSingle.sides 0 ++ capIndices curveSingle.sides 0) :=
  ⟨c1_rebuild_below_two_points.1 exactOps curveNone rfl,
   c1_rebuild_below_two_points.2 exactOps curveSingle cpOrigin rfl⟩

/-! ### Claim C5 -/

/-- C5 counterexample: the claim says every side count below 3 yields no
end-cap triangles and no underflow, but side count 0 makes the u32 loop
bound sides - 1 wrap around, so the rebuild of a one-point curve with 0
sides emits 2 * (2^32 - 2) cap triangles instead of none. -/
theorem c5_counterexample :
    curveZeroSides.sides < 3 ∧ 0 < curveZeroSides.points.length ∧
    capIndices curveZeroSides.sides 0 ≠ [] ∧
    (buildMesh exactOps curveZeroSides).2.length = 6 * (2 ^ 32 - 2) := by
  have hw : wsub32 0 1 - 1 = 2 ^ 32 - 2 := by decide
  refine ⟨by decide, by decide, ?_, ?_⟩
  · intro hempty
    have hlen := capIndices_length curveZeroSides.sides 0
    rw [hempty] at hlen
    simp only [List.length_nil] at hlen
    have : curveZeroSides.sides = 0 := rfl
    rw [this, hw] at hlen
    omega
  · have hp : 0 < curveZeroSides.points.length := by decide
    have hn : (subdivPoints exactOps curveZeroSides).length = 1 :=
      subdivPoints_single exactOps curveZeroSides cpOrigin rfl
    have hb : (buildMesh exactOps curveZeroSides).2 =
        splineIndices exactOps curveZeroSides := by
      simp [buildMesh, hp]
    rw [hb]
    simp only [splineIndices, hn]
    rw [List.length_append, List.length_append, capIndices_length, capIndices_length]
    have hstrip : stripIndices curveZeroSides.sides 1 = [] := by decide
    rw [hstrip]
    have : curveZeroSides.sides = 0 := rfl
    rw [this, hw]
    simp

/-- C5 amended: for side count 1 or 2 (the side counts below 3 that do
not wrap the u32 loop bound; the UI clamps the side count to at least 1)
both end-cap fan loops are empty, so the rebuild emits no end-cap
triangles and the index buffer is exactly the ring-to-ring strip part. -/
theorem c5_no_caps_sides_one_two :
    ∀ ops data, data.sides = 1 ∨ data.sides = 2 →
      capIndices data.sides 0 = [] ∧
      capIndices data.sides (((subdivPoints ops data).length - 1) * data.sides) = [] ∧
      (buildMesh ops data).2 =
        (if 0 < data.points.length then
          stripIndices data.sides (subdivPoints ops data).length else []) := by
  intro ops data h
  have h1 : wsub32 data.sides 1 - 1 = 0 := by
    rcases h with h | h <;> rw [h] <;> decide
  have hcap : ∀ b, capIndices data.sides b = [] := fun b => by
    simp [capIndices, h1]
  refine ⟨hcap 0, hcap _, ?_⟩
  by_cases hp : 0 < data.points.length
  · simp only [buildMesh, if_pos hp, splineIndices, hcap, if_pos hp,
      List.nil_append, List.append_nil]
  · simp only [buildMesh, if_neg hp]

/-- C5 witness: the amended statement evaluated on a one-point curve
with side count 1. -/
theorem c5_witness :
    capIndices curveOneSide.sides 0 = [] ∧
    capIndices curveOneSide.sides
      (((subdivPoints exactOps curveOneSide).length - 1) * curveOneSide.sides) = [] ∧
    (buildMesh exactOps curveOneSide).2 =
      (if 0 < curveOneSide.points.length then
        stripIndices curveOneSide.sides (subdivPoints exactOps curveOneSide).length
       else []) :=
  c5_no_caps_sides_one_two exactOps curveOneSide (Or.inl rfl)

/-! ### Claim C9 -/

/-- C9 counterexample: the claim says the selected point is written with
the same alpha as its stored color, but the source writes the inverted
color through Rgba::from_rgb, which carries alpha 1.0: for a selected
point stored with alpha byte 0 the written quadruple is (1,1,1,1) while
the claimed one is (1,1,1,0). -/
theorem c9_counterexample :
    pointColorVec linGamma idOpaqueRgb [cpTransparent] 0 = [(1, 1, 1, 1)] ∧
    specColorEntry linGamma true cpTransparent.color = (1, 1, 1, 0) ∧
    pointColorVec linGamma idOpaqueRgb [cpTransparent] 0 ≠
      [specColorEntry linGamma true cpTransparent.color] := by
  refine ⟨?_, ?_, ?_⟩
  · with_unfolding_all decide
  · with_unfolding_all decide
  · with_unfolding_all decide

/-- C9 amended: in the buffer refreshed by Spline::update, every
non-selected point is written as the float conversion of its stored
color unchanged, and the selected point is written as the rgb inversion
of its opaque (un-premultiplied) color with alpha written as fully
opaque 1, regardless of the stored alpha. -/
theorem c9_point_color_buffer :
    ∀ (gammaOf : Nat → ℚ) (opaqueRgb : Color32 → Nat × Nat × Nat)
      (points : List SplineControlPoint) (sel i : Nat), i < points.length →
      ((i ≠ sel →
        (pointColorVec gammaOf opaqueRgb points sel).getD i (0, 0, 0, 0) =
          rgbaFromColor32 gammaOf (points.getD i defaultControlPoint).color) ∧
       (i = sel →
        (pointColorVec gammaOf opaqueRgb points sel).getD i (0, 0, 0, 0) =
          (1 - gammaOf (opaqueRgb (points.getD i defaultControlPoint).color).1,
           1 - gammaOf (opaqueRgb (points.getD i defaultControlPoint).color).2.1,
           1 - gammaOf (opaqueRgb (points.getD i defaultControlPoint).color).2.2,
           1))) := by
  intro g og points sel i hi
  have hv : (pointColorVec g og points sel).getD i (0, 0, 0, 0) =
      pointColorEntry g og (i = sel) (points.getD i defaultControlPoint).color := by
    unfold pointColorVec
    exact getD_map_range _ _ _ _ hi
  constructor
  · intro hne
    have hd : (decide (i = sel)) = false := decide_eq_false hne
    rw [hv]
    simp [pointColorEntry, hd]
  · intro heq
    rw [hv]
    simp [pointColorEntry, heq, rgbaFromColor32, color32ToOpaque]

/-- C9 witness: the amended statement evaluated on a one-point buffer
whose only (transparent black) point is selected. -/
theorem c9_witness :
    ((0 : Nat) ≠ 0 →
      (pointColorVec linGamma idOpaqueRgb [cpTransparent] 0).getD 0 (0, 0, 0, 0) =
        rgbaFromColor32 linGamma (([cpTransparent].getD 0 defaultControlPoint)).color) ∧
    ((0 : Nat) = 0 →
      (pointColorVec linGamma idOpaqueRgb [cpTransparent] 0).getD 0 (0, 0, 0, 0) =
        (1 - linGamma (idOpaqueRgb ([cpTransparent].getD 0 defaultControlPoint).color).1,
         1 - linGamma (idOpaqueRgb ([cpTransparent].getD 0 defaultControlPoint).color).2.1,
         1 - linGamma (idOpaqueRgb ([cpTransparent].getD 0 defaultControlPoint).color).2.2,
         1)) :=
  c9_point_color_buffer linGamma idOpaqueRgb [cpTransparent] 0 0 (by decide)

/-! ### Claim C3 -/

/-- C3: parsing fails with the structural error whenever a line whose
trimmed content is the closing brace is reached while the branch stack is
empty (extra closing brace), and whenever the input ends while the stack
is still non-empty (unclosed branches); an Except result carries no
partial tree alongside the error. -/
theorem c3_structural_errors :
    (∀ line rest cur, strTrim line = "\x7d" →
      runParse (line :: rest) cur [] = .error "invalid VMF structure") ∧
    (∀ cur stack, stack ≠ [] →
      runParse [] cur stack = .error "invalid VMF structure") := by
  constructor
  · intro line rest cur h
    rw [runParse.eq_def]
    simp [h]
  · intro cur stack h
    cases stack with
    | nil => exact absurd rfl h
    | cons f t => rfl

/-- C3 witness: an extra closing brace as the only input line, and an
end of input below one still-open branch. -/
theorem c3_witness :
    runParse ["\x7d"] [] [] = .error "invalid VMF structure" ∧
    runParse [] [] [([], "world")] = .error "invalid VMF structure" :=
  ⟨c3_structural_errors.1 "\x7d" [] [] (by decide),
   c3_structural_errors.2 [] [([], "world")] (by simp)⟩

/-! ### Well-formedness lemmas for the parser (claim C2) -/

theorem listWF_append (l1 l2 : List VMFEntry) :
    listWF (l1 ++ l2) = (listWF l1 && listWF l2) := by
  induction l1 with
  | nil => simp [listWF]
  | cons e t ih => simp [listWF, ih, Bool.and_assoc]

theorem listWF_mem (es : List VMFEntry) (h : listWF es = true) :
    ∀ e ∈ es, entryWF e = true := by
  induction es with
  | nil => intro e he; cases he
  | cons a t ih =>
    simp only [listWF, Bool.and_eq_true] at h
    intro e he
    cases he with
    | head => exact h.1
    | tail _ ht => exact ih h.2 e ht

theorem branchGet_nonempty (b : VMFBranch) (k : String)
    (hwf : branchWFb b = true) :
    ∀ es, branchGet b k = some es → es ≠ [] := by
  induction b with
  | nil => intro es h; cases h
  | cons p rest ih =>
    obtain ⟨k2, vs⟩ := p
    simp only [branchWFb, Bool.and_eq_true] at hwf
    intro es h
    simp only [branchGet] at h
    by_cases hk : k2 = k
    · rw [if_pos hk] at h
      injection h with h
      subst h
      intro hnil
      subst hnil
      simp at hwf
    · rw [if_neg hk] at h
      exact ih hwf.2 es h

theorem branchGet_listWF (b : VMFBranch) (k : String)
    (hwf : branchWFb b = true) :
    ∀ es, branchGet b k = some es → listWF es = true := by
  induction b with
  | nil => intro es h; cases h
  | cons p rest ih =>
    obtain ⟨k2, vs⟩ := p
    simp only [branchWFb, Bool.and_eq_true] at hwf
    intro es h
    simp only [branchGet] at h
    by_cases hk : k2 = k
    · rw [if_pos hk] at h
      injection h with h
      subst h
      exact hwf.1.2
    · rw [if_neg hk] at h
      exact ih hwf.2 es h

theorem branchInsert_wf (b : VMFBranch) (k : String) (e : VMFEntry)
    (hb : branchWFb b = true) (he : entryWF e = true) :
    branchWFb (branchInsert b k e) = true := by
  induction b with
  | nil => simp [branchInsert, branchWFb, listWF, he]
  | cons p rest ih =>
    obtain ⟨k2, vs⟩ := p
    simp only [branchWFb, Bool.and_eq_true] at hb
    simp only [branchInsert]
    by_cases hk : k2 = k
    · rw [if_pos hk]
      simp only [branchWFb, Bool.and_eq_true, listWF_append]
      refine ⟨⟨?_, ?_⟩, hb.2⟩
      · simp
      · simp [hb.1.2, listWF, he]
    · rw [if_neg hk]
      simp only [branchWFb, Bool.and_eq_true]
      exact ⟨hb.1, ih hb.2⟩

theorem entryWF_branch (b : VMFBranch) : entryWF (.branch b) = branchWFb b := by
  simp [entryWF]

theorem entryWF_leaf (s : String) : entryWF (.leaf s) = true := by
  simp [entryWF]

theorem runParse_wf :
    ∀ lines cur stack root, runParse lines cur stack = .ok root →
      branchWFb cur = true → (∀ f ∈ stack, branchWFb f.1 = true) →
      branchWFb root = true := by
  intro lines cur stack
  induction lines, cur, stack using runParse.induct with
  | case1 cur stack hs =>
    intro root hr hcur hstack
    rw [runParse.eq_def] at hr
    simp only [if_pos hs] at hr
    cases hr
    exact hcur
  | case2 cur stack hs =>
    intro root hr hcur hstack
    rw [runParse.eq_def] at hr
    simp only [if_neg hs] at hr
    cases hr
  | case3 line rest cur l hl parent childName stack2 ih =>
    intro root hr hcur hstack
    rw [runParse.eq_def] at hr
    have hl2 : strTrim line = "\x7d" := hl
    simp only [hl2, if_pos] at hr
    refine ih root hr ?_ ?_
    · exact branchInsert_wf parent childName (.branch cur)
        (hstack (parent, childName) (List.mem_cons_self _ _))
        ((entryWF_branch cur).symm.trans hcur)
    · exact fun f hf => hstack f (List.mem_cons_of_mem _ hf)
  | case4 line rest cur l hl =>
    intro root hr hcur hstack
    rw [runParse.eq_def] at hr
    have hl2 : strTrim line = "\x7d" := hl
    simp only [hl2] at hr
    cases hr
  | case5 line rest cur stack l hl name value hm ih =>
    intro root hr hcur hstack
    rw [runParse.eq_def] at hr
    have hl2 : ¬ strTrim line = "\x7d" := hl
    have hm2 : matchLeaf (strTrim line) = some (name, value) := hm
    simp only [if_neg hl2, hm2] at hr
    refine ih root hr ?_ hstack
    exact branchInsert_wf cur name (.leaf value) hcur (entryWF_leaf value)
  | case6 line rest cur stack l hl hm hblank ih =>
    intro root hr hcur hstack
    rw [runParse.eq_def] at hr
    have hl2 : ¬ strTrim line = "\x7d" := hl
    have hm2 : matchLeaf (strTrim line) = none := hm
    have hb2 : strTrim line = "" := hblank
    simp only [if_neg hl2, hm2, hb2, if_pos] at hr
    exact ih root hr hcur hstack
  | case7 line cur stack l hl hm hblank =>
    intro root hr hcur hstack
    rw [runParse.eq_def] at hr
    have hl2 : ¬ strTrim line = "\x7d" := hl
    have hm2 : matchLeaf (strTrim line) = none := hm
    have hb2 : ¬ strTrim line = "" := hblank
    simp only [if_neg hl2, hm2, if_neg hb2] at hr
    cases hr
  | case8 line cur stack l hl hm hblank next rest2 hbrace ih =>
    intro root hr hcur hstack
    rw [runParse.eq_def] at hr
    have hl2 : ¬ strTrim line = "\x7d" := hl
    have hm2 : matchLeaf (strTrim line) = none := hm
    have hb2 : ¬ strTrim line = "" := hblank
    simp only [if_neg hl2, hm2, if_neg hb2, if_pos hbrace] at hr
    refine ih root hr rfl ?_
    intro f hf
    cases hf with
    | head => exact hcur
    | tail _ ht => exact hstack f ht
  | case9 line cur stack l hl hm hblank next rest2 hbrace =>
    intro root hr hcur hstack
    rw [runParse.eq_def] at hr
    have hl2 : ¬ strTrim line = "\x7d" := hl
    have hm2 : matchLeaf (strTrim line) = none := hm
    have hb2 : ¬ strTrim line = "" := hblank
    simp only [if_neg hl2, hm2, if_neg hb2, if_neg hbrace] at hr
    cases hr

/-! ### Claim C2 -/

/-- C2: (1) every parsed tree is well formed (each present key holds a
non-empty list, recursively); (2) well-formedness passes to every nested
node, so the contract below covers every parsed Branch node; (3) on a
well-formed branch, get_one fails exactly when the key is absent or holds
more than one value, returns the single child otherwise, and get_all
yields the empty list (not an error) for an absent key. -/
theorem c2_lookup_contract :
    (∀ lines root, parseVMF lines = .ok root → entryWF root = true) ∧
    (∀ (b : VMFBranch) p e, entryWF (.branch b) = true → p ∈ b → e ∈ p.2 →
      entryWF e = true) ∧
    (∀ (b : VMFBranch) (k : String), entryWF (.branch b) = true →
      ((((getOne (.branch b) k).isOk = false) ↔
        (branchGet b k = none ∨
         ∃ es, branchGet b k = some es ∧ 1 < es.length)) ∧
       (∀ e, branchGet b k = some [e] → getOne (.branch b) k = .ok e) ∧
       (branchGet b k = none → getAll (.branch b) k = .ok []))) := by
  refine ⟨?_, ?_, ?_⟩
  · intro lines root hp
    unfold parseVMF at hp
    cases hrun : runParse lines [] [] with
    | error m => rw [hrun] at hp; cases hp
    | ok b =>
      rw [hrun] at hp
      cases hp
      rw [entryWF_branch]
      exact runParse_wf lines [] [] b hrun rfl (fun f hf => by cases hf)
  · intro b p e hwf hp he
    rw [entryWF_branch] at hwf
    have hlist : listWF p.2 = true := by
      induction b with
      | nil => cases hp
      | cons q rest ih =>
        obtain ⟨k2, vs⟩ := q
        simp only [branchWFb, Bool.and_eq_true] at hwf
        cases hp with
        | head => exact hwf.1.2
        | tail _ ht => exact ih hwf.2 ht
    exact listWF_mem p.2 hlist e he
  · intro b k hwf
    rw [entryWF_branch] at hwf
    refine ⟨⟨?_, ?_⟩, ?_, ?_⟩
    · intro hfail
      cases hg : branchGet b k with
      | none => exact Or.inl rfl
      | some es =>
        cases es with
        | nil => exact absurd hg (fun h => branchGet_nonempty b k hwf [] h rfl)
        | cons e1 t =>
          cases t with
          | nil =>
            have : getOne (.branch b) k = .ok e1 := by simp [getOne, hg]
            rw [this] at hfail
            simp [Except.isOk, Except.toBool] at hfail
          | cons e2 t2 =>
            exact Or.inr ⟨e1 :: e2 :: t2, rfl, by simp⟩
    · intro h
      rcases h with hnone | ⟨es, hg, hlen⟩
      · simp [getOne, hnone, Except.isOk, Except.toBool]
      · cases es with
        | nil => simp at hlen
        | cons e1 t =>
          cases t with
          | nil => simp at hlen
          | cons e2 t2 => simp [getOne, hg, Except.isOk, Except.toBool]
    · intro e hg
      simp [getOne, hg]
    · intro hg
      simp [getAll, hg]

/-- C2 witness: the lookup contract evaluated on a parsed one-branch
tree and on a concrete branch with a single-valued key, a two-valued key
and an absent key. -/
theorem c2_witness :
    entryWF (.branch [("a", [.branch [("k", [.leaf "v"])]])]) = true ∧
    entryWF (.branch [("k", [.leaf "v"])]) = true ∧
    ((((getOne (.branch branchKM) "k").isOk = false) ↔
      (branchGet branchKM "k" = none ∨
       ∃ es, branchGet branchKM "k" = some es ∧ 1 < es.length)) ∧
     (∀ e, branchGet branchKM "k" = some [e] →
       getOne (.branch branchKM) "k" = .ok e) ∧
     (branchGet branchKM "k" = none → getAll (.branch branchKM) "k" = .ok [])) ∧
    ((((getOne (.branch branchKM) "m").isOk = false) ↔
      (branchGet branchKM "m" = none ∨
       ∃ es, branchGet branchKM "m" = some es ∧ 1 < es.length)) ∧
     (∀ e, branchGet branchKM "m" = some [e] →
       getOne (.branch branchKM) "m" = .ok e) ∧
     (branchGet branchKM "m" = none → getAll (.branch branchKM) "m" = .ok [])) ∧
    ((((getOne (.branch branchKM) "zzz").isOk = false) ↔
      (branchGet branchKM "zzz" = none ∨
       ∃ es, branchGet branchKM "zzz" = some es ∧ 1 < es.length)) ∧
     (∀ e, branchGet branchKM "zzz" = some [e] →
       getOne (.branch branchKM) "zzz" = .ok e) ∧
     (branchGet branchKM "zzz" = none →
       getAll (.branch branchKM) "zzz" = .ok [])) :=
  ⟨c2_lookup_contract.1 ["a", "\x7b", "\"k\" \"v\"", "\x7d"]
     (.branch [("a", [.branch [("k", [.leaf "v"])]])]) (by with_unfolding_all rfl),
   c2_lookup_contract.2.1 [("a", [.branch [("k", [.leaf "v"])]])]
     ("a", [.branch [("k", [.leaf "v"])]]) (.branch [("k", [.leaf "v"])])
     (by decide) (List.mem_cons_self _ _) (List.mem_cons_self _ _),
   c2_lookup_contract.2.2 branchKM "k" (by decide),
   c2_lookup_contract.2.2 branchKM "m" (by decide),
   c2_lookup_contract.2.2 branchKM "zzz" (by decide)⟩

/-! ### Claim C4 -/

/-- C4 counterexample: the claim puts cos(angle) on the frame normal and
sin(angle) on the binormal, but Rust sin_cos returns the pair
(sin, cos), so the source scales the normal by sin(angle) and the
binormal by cos(angle). On a straight two-point curve the first emitted
vertex is sample + radius * binormal = (0, 0, 4), while the claimed
formula gives sample + radius * normal = (0, 4, 0). -/
theorem c4_counterexample :
    ((buildMesh exactOps curveTwo).1.getD 0 defaultSplineVertex).position = ⟨0, 0, 4⟩ ∧
    vadd ((subdivPoints exactOps curveTwo).getD 0 vzero)
      (smul curveTwo.radius
        (vadd (smul (exactOps.cosTurn ((0 : ℚ) / (curveTwo.sides : ℚ)))
                   (rmfNormal exactOps (subdivPoints exactOps curveTwo)
                     (subdivTangents exactOps curveTwo) 0))
              (smul (exactOps.sinTurn ((0 : ℚ) / (curveTwo.sides : ℚ)))
                   (rmfBinormal exactOps (subdivPoints exactOps curveTwo)
                     (subdivTangents exactOps curveTwo) 0)))) = ⟨0, 4, 0⟩ ∧
    (⟨0, 0, 4⟩ : Vec3) ≠ ⟨0, 4, 0⟩ := by
  refine ⟨?_, ?_, ?_⟩
  · with_unfolding_all decide
  · with_unfolding_all decide
  · with_unfolding_all decide

/-- C4 amended: the emitted tube vertex at sample index i and
cross-section index k (angle = k/sides turns) is
sample + (sin(angle) * normal + cos(angle) * binormal) * radius - the
sine scales the frame normal and the cosine the binormal, the transpose
of the claimed formula - and the vertex carries the curve-parameter
value i * subdivision step. -/
theorem c4_vertex_formula :
    ∀ ops data i k, 0 < data.points.length →
      i < (subdivPoints ops data).length → k < data.sides →
      (buildMesh ops data).1.getD (i * data.sides + k) defaultSplineVertex =
        { position := vadd ((subdivPoints ops data).getD i vzero)
            (smul data.radius
              (vadd (smul (ops.sinTurn ((k : ℚ) / (data.sides : ℚ)))
                       (rmfNormal ops (subdivPoints ops data)
                         (subdivTangents ops data) i))
                    (smul (ops.cosTurn ((k : ℚ) / (data.sides : ℚ)))
                       (rmfBinormal ops (subdivPoints ops data)
                         (subdivTangents ops data) i))))
          tValue := (i : ℚ) * subdivT data } := by
  intro ops data i k hp hi hk
  have hb : (buildMesh ops data).1 = splineVertices ops data := by
    simp [buildMesh, hp]
  rw [hb]
  unfold splineVertices polyPositions
  rw [List.range_eq_range']
  simp only [List.map_map]
  have key := getD_flatMap_blocks
    (fun i2 k2 =>
      ({ position := vadd ((subdivPoints ops data).getD i2 vzero)
           (smul data.radius
             (vadd (smul (ops.sinTurn ((k2 : ℚ) / (data.sides : ℚ)))
                      (rmfNormal ops (subdivPoints ops data)
                        (subdivTangents ops data) i2))
                   (smul (ops.cosTurn ((k2 : ℚ) / (data.sides : ℚ)))
                      (rmfBinormal ops (subdivPoints ops data)
                        (subdivTangents ops data) i2))))
         tValue := (i2 : ℚ) * subdivT data } : SplineVertex))
    data.sides defaultSplineVertex (subdivPoints ops data).length 0 i k hi hk
  simp only [Nat.zero_add] at key
  exact key

/-- C4 witness: the amended formula evaluated at the first sample and
first cross-section point of the two-point curve. -/
theorem c4_witness :
    (buildMesh exactOps curveTwo).1.getD (0 * curveTwo.sides + 0) defaultSplineVertex =
      { position := vadd ((subdivPoints exactOps curveTwo).getD 0 vzero)
          (smul curveTwo.radius
            (vadd (smul (exactOps.sinTurn ((0 : ℚ) / (curveTwo.sides : ℚ)))
                     (rmfNormal exactOps (subdivPoints exactOps curveTwo)
                       (subdivTangents exactOps curveTwo) 0))
                  (smul (exactOps.cosTurn ((0 : ℚ) / (curveTwo.sides : ℚ)))
                     (rmfBinormal exactOps (subdivPoints exactOps curveTwo)
                       (subdivTangents exactOps curveTwo) 0))))
        tValue := (0 : ℚ) * subdivT curveTwo } :=
  c4_vertex_formula exactOps curveTwo 0 0 (by decide)
    (by with_unfolding_all decide) (by decide)

/-! ### Extraction lemmas (claim C6) -/

theorem fanIndices_length (base n : Nat) :
    (fanIndices base n).length = 3 * (n - 2) := by
  unfold fanIndices
  rw [length_flatMap_const (List.range (n - 2))
    (fun j => [base, base + j + 2, base + j + 1]) 3 (fun a _ => rfl),
    List.length_range]
  ring

theorem fanBlocks_length (ns : List Nat) :
    ∀ base, (fanBlocks base ns).length = 3 * (ns.map (fun n => n - 2)).sum := by
  induction ns with
  | nil => intro base; simp [fanBlocks]
  | cons n rest ih =>
    intro base
    simp only [fanBlocks, List.length_append, fanIndices_length, ih, List.map_cons,
      List.sum_cons]
    ring

theorem buildSide_shape (ops : MapOps) (idx : Nat) (side : VMFEntry)
    (r : List MapVertex × List Nat) (h : buildSide ops idx side = .ok r) :
    ∃ n, sideVertexCount ops side = .ok n ∧ 3 ≤ n ∧ r.1.length = n ∧
      r.2 = fanIndices idx n := by
  unfold buildSide at h
  cases hsv : sideVerticesOf ops side with
  | error e => simp only [hsv] at h; cases h
  | ok sv =>
    simp only [hsv] at h
    by_cases hlt : sv.length < 3
    · rw [if_pos hlt] at h; cases h
    · rw [if_neg hlt] at h
      cases hm : getOne side "material" with
      | error e => simp only [hm] at h; cases h
      | ok me =>
        simp only [hm] at h
        cases hs : toStr me with
        | error e => simp only [hs] at h; cases h
        | ok ms =>
          simp only [hs] at h
          cases h
          refine ⟨sv.length, ?_, by omega, ?_, rfl⟩
          · unfold sideVertexCount
            rw [hsv]
            rfl
          · simp [sideRecords]

theorem buildSides_structure (ops : MapOps) :
    ∀ sides verts inds v i, buildSides ops sides verts inds = .ok (v, i) →
      ∃ ns : List Nat,
        ns.length = sides.length ∧
        (∀ j, j < sides.length →
          sideVertexCount ops (sides.getD j (.leaf "")) = .ok (ns.getD j 0) ∧
          3 ≤ ns.getD j 0) ∧
        v.length = verts.length + ns.sum ∧
        i = inds ++ fanBlocks verts.length ns := by
  intro sides
  induction sides with
  | nil =>
    intro verts inds v i h
    unfold buildSides at h
    cases h
    exact ⟨[], rfl, fun j hj => absurd hj (Nat.not_lt_zero j),
      by simp, by simp [fanBlocks]⟩
  | cons side rest ih =>
    intro verts inds v i h
    unfold buildSides at h
    cases hbs : buildSide ops verts.length side with
    | error e => simp only [hbs] at h; cases h
    | ok r =>
      simp only [hbs] at h
      obtain ⟨n, hcount, h3, hrv, hri⟩ := buildSide_shape ops verts.length side r hbs
      obtain ⟨ns, hlen, hjs, hv, hi2⟩ := ih (verts ++ r.1) (inds ++ r.2) v i h
      refine ⟨n :: ns, by simp [hlen], ?_, ?_, ?_⟩
      · intro j hj
        cases j with
        | zero => exact ⟨hcount, h3⟩
        | succ j2 => exact hjs j2 (Nat.lt_of_succ_lt_succ hj)
      · rw [hv]
        simp only [List.length_append, hrv, List.sum_cons]
        omega
      · rw [hi2, hri]
        simp only [fanBlocks, List.length_append, hrv]
        rw [List.append_assoc]

theorem selectSides_visible (root : VMFEntry) (sides : List VMFEntry)
    (hsel : selectSides root = .ok sides) :
    ∀ s ∈ sides, isSideVisible s = true := by
  unfold selectSides at hsel
  cases h1 : getOne root "world" with
  | error e => simp only [h1] at hsel; cases hsel
  | ok world =>
  simp only [h1] at hsel
  cases h2 : getAll world "solid" with
  | error e => simp only [h2] at hsel; cases hsel
  | ok worldSolids =>
  simp only [h2] at hsel
  cases h3 : getAll root "entity" with
  | error e => simp only [h3] at hsel; cases hsel
  | ok entities =>
  simp only [h3] at hsel
  cases h4 : mapME (fun e => getAll e "solid") (entities.filter isDetailEntity) with
  | error e => simp only [h4] at hsel; cases hsel
  | ok entitySolidLists =>
  simp only [h4] at hsel
  cases h5 : mapME (fun s => getAll s "side") worldSolids with
  | error e => simp only [h5] at hsel; cases hsel
  | ok worldSideLists =>
  simp only [h5] at hsel
  cases h6 : mapME (fun s => getAll s "side") entitySolidLists.flatten with
  | error e => simp only [h6] at hsel; cases hsel
  | ok entitySideLists =>
  simp only [h6] at hsel
  cases hsel
  intro s hs
  rcases List.mem_append.mp hs with hmem | hmem <;>
  · obtain ⟨l2, hl2, hsl⟩ := List.mem_flatten.mp hmem
    obtain ⟨l0, _, hfil⟩ := List.mem_map.mp hl2
    subst hfil
    exact List.of_mem_filter hsl

/-! ### Claim C6 -/

/-- C6: a face whose material key is missing (or not single-valued), or
whose material is not a string leaf, or whose case-normalized material is
in the fixed tool-material set, is invisible, so extraction drops it
without error and its vertices never reach the output buffer; and on
every successful extraction the buffers decompose over the retained
(visible) faces: each has n >= 3 parsed vertices and contributes exactly
n vertices and the triangle fan from its vertex 0 with 3*(n-2) indices,
at consecutive global offsets. -/
theorem c6_extract_filter_and_fan :
    (∀ side : VMFEntry,
      ((getOne side "material").isOk = false ∨
       (∃ m, getOne side "material" = .ok m ∧ (toStr m).isOk = false) ∨
       (∃ m s, getOne side "material" = .ok m ∧ toStr m = .ok s ∧
         toolMaterials.contains (strUpper s) = true)) →
      isSideVisible side = false) ∧
    (∀ ops root v i, mapExtract ops root = .ok (v, i) →
      ∃ sides ns,
        selectSides root = .ok sides ∧
        (∀ s ∈ sides, isSideVisible s = true) ∧
        ns.length = sides.length ∧
        (∀ j, j < sides.length →
          sideVertexCount ops (sides.getD j (.leaf "")) = .ok (ns.getD j 0) ∧
          3 ≤ ns.getD j 0) ∧
        v.length = ns.sum ∧
        i = fanBlocks 0 ns ∧
        i.length = 3 * (ns.map (fun n => n - 2)).sum) := by
  constructor
  · intro side hdrop
    unfold isSideVisible
    rcases hdrop with hfail | ⟨m, hm, hfail⟩ | ⟨m, s, hm, hs, htool⟩
    · cases hg : getOne side "material" with
      | error e => simp
      | ok m =>
        rw [hg] at hfail
        simp [Except.isOk, Except.toBool] at hfail
    · simp only [hm]
      cases ht : toStr m with
      | error e => simp
      | ok s2 =>
        rw [ht] at hfail
        simp [Except.isOk, Except.toBool] at hfail
    · simp only [hm, hs, htool]
      rfl
  · intro ops root v i hx
    unfold mapExtract at hx
    cases hsel : selectSides root with
    | error e => simp only [hsel] at hx; cases hx
    | ok sides =>
      simp only [hsel] at hx
      obtain ⟨ns, hlen, hjs, hv, hi⟩ := buildSides_structure ops sides [] [] v i hx
      refine ⟨sides, ns, rfl, selectSides_visible root sides hsel, hlen, hjs,
        ?_, ?_, ?_⟩
      · simpa using hv
      · simpa using hi
      · rw [hi]
        simp [fanBlocks_length]

/-- C6 witness: a map with one visible integer quad face and one nodraw
triangle face extracts to exactly the quad's 4 vertices and its
6 fan indices; the nodraw face is invisible and contributes nothing. -/
theorem c6_witness :
    isSideVisible sideNodrawTri = false ∧
    (∃ sides ns,
      selectSides mapRootQuad = .ok sides ∧
      (∀ s ∈ sides, isSideVisible s = true) ∧
      ns.length = sides.length ∧
      (∀ j, j < sides.length →
        sideVertexCount exactMapOps (sides.getD j (.leaf "")) = .ok (ns.getD j 0) ∧
        3 ≤ ns.getD j 0) ∧
      ([(⟨⟨0, 0, 0⟩, (0, 0), ⟨1/2, 1/2, 1⟩⟩ : MapVertex),
        ⟨⟨1, 0, 0⟩, (1/256, 0), ⟨1/2, 1/2, 1⟩⟩,
        ⟨⟨1, 1, 0⟩, (1/256, 1/256), ⟨1/2, 1/2, 1⟩⟩,
        ⟨⟨0, 1, 0⟩, (0, 1/256), ⟨1/2, 1/2, 1⟩⟩] : List MapVertex).length = ns.sum ∧
      ([0, 2, 1, 0, 3, 2] : List Nat) = fanBlocks 0 ns ∧
      ([0, 2, 1, 0, 3, 2] : List Nat).length =
        3 * (ns.map (fun n => n - 2)).sum) :=
  ⟨c6_extract_filter_and_fan.1 sideNodrawTri
    (Or.inr (Or.inr ⟨.leaf "tools/toolsnodraw", "tools/toolsnodraw",
      by with_unfolding_all rfl, rfl, by decide⟩)),
   c6_extract_filter_and_fan.2 exactMapOps mapRootQuad
     [⟨⟨0, 0, 0⟩, (0, 0), ⟨1/2, 1/2, 1⟩⟩,
      ⟨⟨1, 0, 0⟩, (1/256, 0), ⟨1/2, 1/2, 1⟩⟩,
      ⟨⟨1, 1, 0⟩, (1/256, 1/256), ⟨1/2, 1/2, 1⟩⟩,
      ⟨⟨0, 1, 0⟩, (0, 1/256), ⟨1/2, 1/2, 1⟩⟩]
     [0, 2, 1, 0, 3, 2]
     (by with_unfolding_all decide)⟩
